import Mathlib

/-!
Verification of the recursive web loader (`src/lib.rs`).

The development shallowly embeds the crawler's core: the markup tree the
external parser produces, the extraction pipeline (`collect_text_not_in_script`,
`extractor`, `extract_metadata`, `get_child_links`), and the depth-bounded
traversal (`get_child_urls_recursive`, `load`).

External collaborators are modelled as data:
  * the markup parser (`scraper::Html::parse_document`) becomes a function
    `World.parse : String → List Node` producing an abstract node forest;
  * the HTTP client (`fetch_url`, with its timeout) becomes a deterministic
    per-run function `World.fetch : String → Option String` (`none` is any
    fetch failure: network error, non-success status, or timeout);
  * `reqwest::Url` becomes the structure `Url` with its scheme, its serialized
    form (`as_str`) and its `join` operation (already composed with
    `to_string`; `none` models a join error, i.e. `.ok()` dropping the value);
    `World.parseUrl` models `Url::parse(..).unwrap()` (the unwrap's panic on
    an unparseable base never fires in the modelled runs, so it is totalized).

The traversal additionally returns a ghost trace of fetch attempts
(`FetchEvent`), used to state the deduplication and double-fetch properties;
the trace and the returned visited set are erased by the projection `load`,
which returns exactly what the Rust `load` returns.

The Rust recursion carries `depth` and stops when `depth >= max_depth`,
recursing with `depth + 1`.  The embedding performs the equivalent change of
variable `remaining = max_depth - depth`: it stops when `remaining = 0` and
recurses with `remaining - 1`; `load` starts the recursion at
`remaining = max_depth` (the Rust code starts it at `depth = 0`).
-/

namespace Rwl

/-- Abstract markup node: element with tag, attributes and children, or text. -/
inductive Node where
  | element : String → List (String × String) → List Node → Node
  | text : String → Node

/-- Model of a parsed `reqwest::Url`: scheme, serialized form, join operation. -/
structure Url where
  scheme : String
  asStr : String
  join : String → Option String

/-- The external collaborators of one crawl run. -/
structure World where
  fetch : String → Option String
  parse : String → List Node
  parseUrl : String → Url

/-- Model of `Document` from the source: extracted page content plus metadata.
The Rust `HashMap<String, String>` is modelled as an association list with
unique keys (see `insertKV`). -/
structure Document where
  page_content : String
  metadata : List (String × String)
deriving DecidableEq

/-- Model of the `RecursiveWebLoader` configuration fields (after `new` applied defaults).
The HTTP client and the timeout are absorbed into `World.fetch`. -/
structure RecursiveWebLoader where
  url : String
  exclude_dirs : List String
  max_depth : Nat
  timeout : Nat
  prevent_outside : Bool

/-- Ghost record of one fetch attempt: the pre-recursion fetch of the
trailing-slash-normalized current page, or the fetch of a child link via
`get_url_as_doc` inside the child loop. -/
inductive FetchEvent where
  | expand : String → FetchEvent
  | child : String → FetchEvent
deriving DecidableEq

mutual
/-- Matching element nodes of one node's subtree (the node included), in
document (depth-first, preorder) order. -/
def selectAllByNode (p : String → List (String × String) → Bool) : Node → List Node
  | Node.element t a ch =>
      (if p t a then [Node.element t a ch] else []) ++ selectAllBy p ch
  | Node.text _ => []

/-- Model of `scraper`'s selection: all element nodes of the forest, in
document (depth-first, preorder) order, whose tag and attributes satisfy `p`. -/
def selectAllBy (p : String → List (String × String) → Bool) : List Node → List Node
  | [] => []
  | n :: ns => selectAllByNode p n ++ selectAllBy p ns
end

/-- Selector by tag name (`Selector::parse("title")` etc.). -/
def selectTag (tag : String) (d : List Node) : List Node :=
  selectAllBy (fun t _ => t == tag) d

/-- Selector for `meta[name=description]`. -/
def selectMetaDescription (d : List Node) : List Node :=
  selectAllBy
    (fun t a => t == "meta" &&
      (match a.lookup "name" with
       | some v => v == "description"
       | none => false)) d

/-- Model of `element.value().attr(k)`: first value bound to attribute `k`. -/
def getAttr (n : Node) (k : String) : Option String :=
  match n with
  | Node.element _ attrs _ => attrs.lookup k
  | Node.text _ => none

/-- Serialization of a forest back to markup, used to model `inner_html`. -/
def serializeAttrs : List (String × String) → String
  | [] => ""
  | (k, v) :: rest => " " ++ k ++ "=" ++ "\"" ++ v ++ "\"" ++ serializeAttrs rest

mutual
/-- Serialization of one node back to markup. -/
def serializeNode : Node → String
  | Node.text s => s
  | Node.element t a ch =>
      "<" ++ t ++ serializeAttrs a ++ ">" ++ serializeForest ch ++ "</" ++ t ++ ">"

/-- Serialization of a node forest (children of `inner_html`). -/
def serializeForest : List Node → String
  | [] => ""
  | n :: ns => serializeNode n ++ serializeForest ns
end

/-- Model of `scraper`'s `inner_html`: the serialized children of an element. -/
def innerHtml : Node → String
  | Node.element _ _ ch => serializeForest ch
  | Node.text s => s

mutual
/-- Source function `collect_text_not_in_script`: walk the children of an
element; skip any child element tagged `script` entirely; recurse into other
child elements; emit the content of text children. -/
def collect_text_not_in_script : Node → List String
  | Node.element _ _ children => collectChildrenText children
  | Node.text _ => []

/-- The `for node in element.children()` loop of `collect_text_not_in_script`. -/
def collectChildrenText : List Node → List String
  | [] => []
  | Node.element tag a ch :: ns =>
      if tag = "script" then collectChildrenText ns
      else collect_text_not_in_script (Node.element tag a ch) ++ collectChildrenText ns
  | Node.text s :: ns => s :: collectChildrenText ns
end

mutual
/-- Removal of every `script`-tagged element subtree (specification-side helper
used to state that the body walk ignores script subtrees). -/
def pruneScripts : Node → Node
  | Node.element t a ch => Node.element t a (pruneScriptsList ch)
  | Node.text s => Node.text s

/-- Mapping of `pruneScripts` over a forest: `script` elements are dropped, the rest is
pruned recursively. -/
def pruneScriptsList : List Node → List Node
  | [] => []
  | Node.element tag a ch :: ns =>
      if tag = "script" then pruneScriptsList ns
      else pruneScripts (Node.element tag a ch) :: pruneScriptsList ns
  | Node.text s :: ns => Node.text s :: pruneScriptsList ns
end

mutual
/-- All text-node contents of one node's subtree, in document order. -/
def allTextsNode : Node → List String
  | Node.element _ _ ch => allTexts ch
  | Node.text s => [s]

/-- All text-node contents of a forest, in document order. -/
def allTexts : List Node → List String
  | [] => []
  | n :: ns => allTextsNode n ++ allTexts ns
end

mutual
/-- Text-node contents of one node's subtree that lie inside some
`script`-tagged element. -/
def scriptTextsNode : Node → List String
  | Node.element tag _ ch => if tag = "script" then allTexts ch else scriptTexts ch
  | Node.text _ => []

/-- Text-node contents of a forest that lie inside some `script`-tagged
element. -/
def scriptTexts : List Node → List String
  | [] => []
  | n :: ns => scriptTextsNode n ++ scriptTexts ns
end

/-- The character class of the Rust regex `\s` (Unicode `White_Space`). -/
def isWs (c : Char) : Bool :=
  c == ' ' || c == '\t' || c == '\n' || c == '\r' || c == '\x0B' || c == '\x0C' ||
  c == '\u0085' || c == ' ' || c == ' ' ||
  c == ' ' || c == ' ' || c == ' ' || c == ' ' || c == ' ' ||
  c == ' ' || c == ' ' || c == ' ' || c == ' ' || c == ' ' ||
  c == ' ' || c == ' ' || c == ' ' || c == ' ' || c == ' ' ||
  c == '　'

/-- Model of `Regex::new(r"\s+").replace_all(s, " ")`: every maximal run of
whitespace characters is replaced by a single space.  The flag records whether
the previous character belonged to a whitespace run. -/
def collapseGo (prevWs : Bool) : List Char → List Char
  | [] => []
  | c :: cs =>
      if isWs c then
        if prevWs then collapseGo true cs else ' ' :: collapseGo true cs
      else c :: collapseGo false cs

/-- Whitespace-run collapse on a string. -/
def collapseWhitespace (s : String) : String :=
  String.mk (collapseGo false s.data)

/-- Model of `str::replace` with a one-character pattern and a space
replacement (`.replace("\n", " ")`, `.replace("\t", " ")`). -/
def replaceCharWithSpace (c : Char) (s : String) : String :=
  String.mk (s.data.map fun x => if x = c then ' ' else x)

/-- Rust `str::starts_with` on the character-list view of strings. -/
def strStartsWith (s pre : String) : Bool :=
  List.isPrefixOf pre.data s.data

/-- Rust `str::ends_with` on the character-list view of strings. -/
def strEndsWith (s suf : String) : Bool :=
  List.isSuffixOf suf.data s.data

/-- Model of `HashMap::insert` on the association-list representation: overwrite the binding of
the key if present, otherwise append it. -/
def insertKV (m : List (String × String)) (k v : String) : List (String × String) :=
  match m with
  | [] => [(k, v)]
  | (k1, v1) :: rest => if k1 = k then (k, v) :: rest else (k1, v1) :: insertKV rest k v

/-- Conditional insert: bind `key` when the optional value is present.  Only a
proof-side reformulation device for the conditional inserts of
`extract_metadata` (see `extract_metadata_optInsert`). -/
def optInsert (m : List (String × String)) (key : String) (ov : Option String) :
    List (String × String) :=
  match ov with
  | some v => insertKV m key v
  | none => m

/-- Source function `extract_metadata`: always bind `source` to the URL; bind
`title` to the inner markup of the first `title` element if any; bind
`description` to the `content` attribute of the first `meta[name=description]`
element if both exist; bind `language` to the `lang` attribute of the first
`html` element if both exist. -/
def extract_metadata (W : World) (raw_html : String) (url : String) :
    List (String × String) :=
  let metadata := insertKV [] "source" url
  let d := W.parse raw_html
  let metadata :=
    match (selectTag "title" d).head? with
    | some title => insertKV metadata "title" (innerHtml title)
    | none => metadata
  let metadata :=
    match (selectMetaDescription d).head? with
    | some description =>
        match getAttr description "content" with
        | some content => insertKV metadata "description" content
        | none => metadata
    | none => metadata
  let metadata :=
    match (selectTag "html" d).head? with
    | some html =>
        match getAttr html "lang" with
        | some lang => insertKV metadata "language" lang
        | none => metadata
    | none => metadata
  metadata

/-- Source function `extractor`: collect the text of every `body` element's
subtree (skipping `script` subtrees), join the fragments with single spaces,
replace newlines and tabs with spaces, then collapse whitespace runs. -/
def extractor (W : World) (raw_html : String) : String :=
  let d := W.parse raw_html
  let text := ((selectTag "body" d).map collect_text_not_in_script).flatten
  let joined_text := String.intercalate " " text
  let cleaned_text := replaceCharWithSpace '\t' (replaceCharWithSpace '\n' joined_text)
  collapseWhitespace cleaned_text

/-- Source function `get_url_as_doc`: fetch the URL; on success build the
`Document` from the fetched body; on failure return nothing. -/
def get_url_as_doc (W : World) (url : String) : Option Document :=
  match W.fetch url with
  | some response =>
      some (Document.mk (extractor W response) (extract_metadata W response url))
  | none => none

/-- The href-normalization step of `get_child_links`: an href starting with
`http` is kept unchanged; an href starting with `//` gets the base scheme and
a colon prepended; any other href is joined onto the base URL, a failed join
yielding `none`. -/
def normalizeHref (base : Url) (href : String) : Option String :=
  if strStartsWith href "http" then some href
  else if strStartsWith href "//" then some (base.scheme ++ ":" ++ href)
  else base.join href

/-- The filter step of `get_child_links`: drop links matching an excluded
prefix, `javascript:` or `mailto:` links, links ending in a non-page resource
extension, and (when `prevent_outside` is set) links that do not start with
the serialized base URL. -/
def keepLink (L : RecursiveWebLoader) (base : Url) (link : String) : Bool :=
  !(L.exclude_dirs.any fun ex_dir => strStartsWith link ex_dir)
    && !(strStartsWith link "javascript:")
    && !(strStartsWith link "mailto:")
    && !(strEndsWith link ".css")
    && !(strEndsWith link ".js")
    && !(strEndsWith link ".ico")
    && !(strEndsWith link ".png")
    && !(strEndsWith link ".jpg")
    && !(strEndsWith link ".jpeg")
    && !(strEndsWith link ".gif")
    && !(strEndsWith link ".svg")
    && (!L.prevent_outside || strStartsWith link base.asStr)

/-- Source function `get_child_links`: hrefs of all `a` elements, normalized
via `normalizeHref` (failures dropped), then filtered via `keepLink`. -/
def get_child_links (L : RecursiveWebLoader) (W : World) (html : String)
    (base_url : String) : List String :=
  let d := W.parse html
  let base := W.parseUrl base_url
  (((selectTag "a" d).filterMap fun e => getAttr e "href").filterMap
      fun href => normalizeHref base href).filter
    fun link => keepLink L base link

/-- The `for child_url in child_urls` loop of `get_child_urls_recursive`.
`expandF` is the recursion into a child at the next depth (the source calls
`get_child_urls_recursive(child_url, visited, depth + 1)` there).  Returns the
accumulated documents, the final visited set, and the ghost fetch trace. -/
def processChildren (W : World)
    (expandF : String → List String → List Document × List String × List FetchEvent) :
    List String → List String → List Document × List String × List FetchEvent
  | [], visited => ([], visited, [])
  | child_url :: rest, visited =>
    if visited.contains child_url then
      processChildren W expandF rest visited
    else
      let visited1 := child_url :: visited
      match get_url_as_doc W child_url with
      | none =>
          let rr := processChildren W expandF rest visited1
          (rr.1, rr.2.1, FetchEvent.child child_url :: rr.2.2)
      | some child_doc =>
          if strEndsWith child_url "/" then
            let rc := expandF child_url visited1
            let rr := processChildren W expandF rest rc.2.1
            (child_doc :: rc.1 ++ rr.1, rr.2.1,
              FetchEvent.child child_url :: rc.2.2 ++ rr.2.2)
          else
            let rr := processChildren W expandF rest visited1
            (child_doc :: rr.1, rr.2.1, FetchEvent.child child_url :: rr.2.2)

/-- Source function `get_child_urls_recursive`, with
`remaining = max_depth - depth` (see the header comment): return nothing at
the depth bound; normalize the current URL to end with `/`; prune excluded
prefixes before fetching; fetch the normalized URL (failure prunes the
branch); extract child links and run the child loop. -/
def get_child_urls_recursive (L : RecursiveWebLoader) (W : World) :
    Nat → String → List String → List Document × List String × List FetchEvent
  | 0, _, visited => ([], visited, [])
  | remaining + 1, input_url, visited =>
    let url := if strEndsWith input_url "/" then input_url else input_url ++ "/"
    if L.exclude_dirs.any (fun ex_dir => strStartsWith url ex_dir) then
      ([], visited, [])
    else
      match W.fetch url with
      | none => ([], visited, [FetchEvent.expand url])
      | some res =>
          let child_urls := get_child_links L W res url
          let r := processChildren W
            (fun child_url visited1 =>
              get_child_urls_recursive L W remaining child_url visited1)
            child_urls visited
          (r.1, r.2.1, FetchEvent.expand url :: r.2.2)

/-- Source function `load`, with the ghost visited set and fetch trace kept:
fetch the root into a `Document` (failure empties the run), seed the visited
set with the root URL, then recurse from the root at depth 0
(`remaining = max_depth`). -/
def loadT (L : RecursiveWebLoader) (W : World) :
    List Document × List String × List FetchEvent :=
  match get_url_as_doc W L.url with
  | none => ([], [], [])
  | some root_doc =>
      let visited := [L.url]
      let r := get_child_urls_recursive L W L.max_depth L.url visited
      (root_doc :: r.1, r.2.1, r.2.2)

/-- Source function `load`: the documents of `loadT`. -/
def load (L : RecursiveWebLoader) (W : World) : List Document :=
  (loadT L W).1

/-- URLs of the child-fetch attempts of a trace. -/
def childFetchUrls : List FetchEvent → List String
  | [] => []
  | FetchEvent.child u :: es => u :: childFetchUrls es
  | FetchEvent.expand _ :: es => childFetchUrls es

/-- Crawl-run trace invariant relative to the starting visited set `v`: the
visited set only grows, every child-fetched URL ends up recorded in the final
visited set and was not in the starting one, and no URL is child-fetched
twice. -/
def TraceOk (v : List String) (r : List Document × List String × List FetchEvent) : Prop :=
  (∀ x, x ∈ v → x ∈ r.2.1)
    ∧ (∀ u, u ∈ childFetchUrls r.2.2 → u ∈ r.2.1 ∧ u ∉ v)
    ∧ (childFetchUrls r.2.2).Nodup

/-- Two consecutive space characters occur somewhere in the list. -/
def hasTwoSpaces : List Char → Bool
  | c :: d :: rest => (c == ' ' && d == ' ') || hasTwoSpaces (d :: rest)
  | _ => false

/-- The list starts with a space character. -/
def headIsSpace : List Char → Bool
  | c :: _ => c == ' '
  | [] => false

/-- Substring (contiguous) containment test on strings. -/
def hasInfix (pat : List Char) : List Char → Bool
  | [] => pat.isEmpty
  | c :: rest => List.isPrefixOf pat (c :: rest) || hasInfix pat rest

/-- Predicate `containsSubstring s pat`: true when `pat` occurs contiguously in `s`. -/
def containsSubstring (s pat : String) : Bool :=
  hasInfix pat.data s.data

/-- Concrete parse tree of the root page fetched without a trailing slash. -/
def pageHello : List Node :=
  [Node.element "html" [] [Node.element "body" [] [Node.text "Hello"]]]

/-- Concrete parse tree of the root page fetched with a trailing slash: its
body links to `http://s/a`. -/
def pageRoot : List Node :=
  [Node.element "html" []
    [Node.element "body" []
      [Node.text "Hello",
       Node.element "a" [("href", "http://s/a")] [Node.text "link"]]]]

/-- Concrete parse tree of the child page `http://s/a`. -/
def pageA : List Node :=
  [Node.element "body" [] [Node.text "Hi"]]

/-- Concrete world: a site rooted at `http://s` with one child page. -/
def W1 : World :=
  ⟨fun u =>
      if u = "http://s" then some "ROOT"
      else if u = "http://s/" then some "ROOTPAGE"
      else if u = "http://s/a" then some "APAGE"
      else none,
    fun s =>
      if s = "ROOT" then pageHello
      else if s = "ROOTPAGE" then pageRoot
      else if s = "APAGE" then pageA
      else [],
    fun s => ⟨"http", s, fun rel => some ("http://s/" ++ rel)⟩⟩

/-- Concrete loader over `W1` with depth bound 1. -/
def L1 : RecursiveWebLoader :=
  ⟨"http://s", [], 1, 10000, true⟩

/-- Concrete loader whose normalized root URL matches an excluded prefix. -/
def L2 : RecursiveWebLoader :=
  ⟨"http://s", ["http://s/"], 1, 10000, true⟩

/-- Concrete loader with depth bound 0 over `W1`. -/
def L0 : RecursiveWebLoader :=
  ⟨"http://s", [], 0, 10000, true⟩

/-- Concrete parse tree whose body carries the text `hello` both outside and
inside a `script` element. -/
def cexForest : List Node :=
  [Node.element "html" []
    [Node.element "body" []
      [Node.text "hello",
       Node.element "script" [] [Node.text "hello"]]]]

/-- Concrete world whose parser always yields `cexForest`. -/
def Wcex : World :=
  ⟨fun _ => none, fun _ => cexForest, fun s => ⟨"http", s, fun _ => none⟩⟩

/-- Concrete world whose fetches all fail. -/
def Wfail : World :=
  ⟨fun _ => none, fun _ => [], fun s => ⟨"http", s, fun _ => none⟩⟩

/-- Concrete base URL whose join operation always fails. -/
def Bnone : Url :=
  ⟨"http", "http://s/", fun _ => none⟩

theorem mem_collapseGo : ∀ (l : List Char) (b : Bool) (c : Char),
    c ∈ collapseGo b l → c = ' ' ∨ isWs c = false := by
  intro l
  induction l with
  | nil => intro b c h; simp [collapseGo] at h
  | cons x xs ih =>
    intro b c h
    simp only [collapseGo] at h
    by_cases hx : isWs x = true
    · rw [if_pos hx] at h
      cases b with
      | true => exact ih true c h
      | false =>
        rcases List.mem_cons.mp h with h1 | h1
        · exact Or.inl h1
        · exact ih true c h1
    · rw [if_neg hx] at h
      rcases List.mem_cons.mp h with h1 | h1
      · subst h1; exact Or.inr (by simpa using hx)
      · exact ih false c h1

theorem headIsSpace_collapseGo_true : ∀ l : List Char,
    headIsSpace (collapseGo true l) = false := by
  intro l
  induction l with
  | nil => rfl
  | cons x xs ih =>
    simp only [collapseGo]
    by_cases hx : isWs x = true
    · simp only [if_pos hx, if_pos rfl]
      exact ih
    · simp only [if_neg hx, headIsSpace]
      have hxs : x ≠ ' ' := by
        intro he
        subst he
        exact hx (by decide)
      simpa using hxs

theorem hasTwoSpaces_collapseGo : ∀ (l : List Char) (b : Bool),
    hasTwoSpaces (collapseGo b l) = false := by
  intro l
  induction l with
  | nil => intro b; rfl
  | cons x xs ih =>
    intro b
    simp only [collapseGo]
    by_cases hx : isWs x = true
    · cases b with
      | true =>
        simp only [if_pos hx, if_pos rfl]
        exact ih true
      | false =>
        simp only [if_pos hx, if_neg (by simp : ¬ (false = true))]
        have hh := headIsSpace_collapseGo_true xs
        have ht := ih true
        cases hr : collapseGo true xs with
        | nil => rfl
        | cons y ys =>
          rw [hr] at hh ht
          simp only [headIsSpace] at hh
          simp [hasTwoSpaces, hh, ht]
    · simp only [if_neg hx]
      have hxs : (x == ' ') = false := by
        have : x ≠ ' ' := by
          intro he
          subst he
          exact hx (by decide)
        simpa using this
      have ht := ih false
      cases hr : collapseGo false xs with
      | nil => simp [hasTwoSpaces]
      | cons y ys =>
        rw [hr] at ht
        simp [hasTwoSpaces, hxs, ht]

/-- C6: for every markup input, the Content Extractor's output contains no two
consecutive space characters and no tab or newline characters. -/
theorem extractor_no_double_space_no_tab_newline (W : World) (raw_html : String) :
    hasTwoSpaces (extractor W raw_html).data = false
      ∧ (extractor W raw_html).data.all
          (fun c => !(c == '\t') && !(c == '\n')) = true := by
  constructor
  · exact hasTwoSpaces_collapseGo _ false
  · apply List.all_eq_true.mpr
    intro c hc
    rcases mem_collapseGo _ false c hc with h | h
    · subst h; decide
    · simp only [isWs, Bool.or_eq_false_iff] at h
      simp [h.1.1.1.1.1.1.1.1.1.1.1.1.1.1.1.1.1.1.1.1.1.1.2,
        h.1.1.1.1.1.1.1.1.1.1.1.1.1.1.1.1.1.1.1.1.1.1.1.2]

mutual
theorem collect_prune_node : (n : Node) →
    collect_text_not_in_script (pruneScripts n) = collect_text_not_in_script n
  | Node.element t a ch => by
      simp only [pruneScripts, collect_text_not_in_script]
      exact collect_prune_list ch
  | Node.text _ => rfl

theorem collect_prune_list : (ns : List Node) →
    collectChildrenText (pruneScriptsList ns) = collectChildrenText ns
  | [] => rfl
  | Node.element tag a ch :: ns => by
      by_cases h : tag = "script"
      · simp only [pruneScriptsList, if_pos h, collectChildrenText, if_pos h]
        exact collect_prune_list ns
      · simp only [pruneScriptsList, if_neg h, pruneScripts, collectChildrenText,
          if_neg h, collect_text_not_in_script]
        rw [collect_prune_list ch, collect_prune_list ns]
  | Node.text s :: ns => by
      simp only [pruneScriptsList, collectChildrenText]
      rw [collect_prune_list ns]
end

/-- C7 counterexample: on a page whose body contains the text `hello` both
outside and inside a `script` element, the extractor output does contain a
substring equal to a text occurring inside a `script` element, refuting the
universal script-substring exclusion. -/
theorem script_substring_cex :
    "hello" ∈ scriptTexts (Wcex.parse "<body>hello<script>hello</script></body>")
      ∧ containsSubstring
          (extractor Wcex "<body>hello<script>hello</script></body>") "hello" = true := by
  exact ⟨by decide, by decide⟩

/-- C7 (amended): the body walk skips the entire subtree of every element
whose tag is `script`: the collected text is unchanged when every `script`
subtree is removed from the walked element, so text occurring inside `script`
elements is never emitted by the walk (though the output may still contain an
equal substring when the same text also occurs outside every script). -/
theorem collect_text_skips_script_subtrees (n : Node) :
    collect_text_not_in_script (pruneScripts n) = collect_text_not_in_script n :=
  collect_prune_node n

/-- C1: if fetching the root URL fails, `load` returns the empty sequence; if
it succeeds, the result starts with the Document extracted from the root's
fetched body, followed by the recursive expansion's documents. -/
theorem load_root_fetch (L : RecursiveWebLoader) (W : World) :
    (W.fetch L.url = none → load L W = [])
      ∧ ∀ res, W.fetch L.url = some res →
          load L W =
            Document.mk (extractor W res) (extract_metadata W res L.url)
              :: (get_child_urls_recursive L W L.max_depth L.url [L.url]).1 := by
  constructor
  · intro h
    simp [load, loadT, get_url_as_doc, h]
  · intro res h
    simp [load, loadT, get_url_as_doc, h]

/-- C1 witness: with all fetches failing the result is empty; in the concrete
world `W1` the result starts with the root document. -/
theorem load_root_fetch_witness :
    load L1 Wfail = []
      ∧ load L1 W1 =
          Document.mk (extractor W1 "ROOT") (extract_metadata W1 "ROOT" "http://s")
            :: (get_child_urls_recursive L1 W1 1 "http://s" ["http://s"]).1 :=
  ⟨(load_root_fetch L1 Wfail).1 rfl, (load_root_fetch L1 W1).2 "ROOT" rfl⟩

/-- C3: with `max_depth = 0` and a successful root fetch, `load` returns
exactly the root document: the recursion stops immediately because it only
proceeds while the current depth is strictly below `max_depth`. -/
theorem load_depth_zero (L : RecursiveWebLoader) (W : World) (res : String)
    (h0 : L.max_depth = 0) (hf : W.fetch L.url = some res) :
    load L W = [Document.mk (extractor W res) (extract_metadata W res L.url)] := by
  simp [load, loadT, get_url_as_doc, hf, h0, get_child_urls_recursive]

/-- C3 witness: the depth-0 loader over `W1` yields exactly the root document. -/
theorem load_depth_zero_witness :
    load L0 W1 = [Document.mk "Hello" [("source", "http://s")]] :=
  (load_depth_zero L0 W1 "ROOT" rfl rfl).trans (by decide)

/-- C4: the link filter keeps a normalized link if and only if it starts with
no excluded-directory prefix, is not a `javascript:` or `mailto:` link, does
not end with any non-page resource extension, and, when `prevent_outside` is
enabled, starts with the current page's serialized base URL. -/
theorem keepLink_iff (L : RecursiveWebLoader) (base : Url) (link : String) :
    keepLink L base link = true ↔
      ((∀ ex_dir ∈ L.exclude_dirs, strStartsWith link ex_dir = false)
        ∧ strStartsWith link "javascript:" = false
        ∧ strStartsWith link "mailto:" = false
        ∧ strEndsWith link ".css" = false
        ∧ strEndsWith link ".js" = false
        ∧ strEndsWith link ".ico" = false
        ∧ strEndsWith link ".png" = false
        ∧ strEndsWith link ".jpg" = false
        ∧ strEndsWith link ".jpeg" = false
        ∧ strEndsWith link ".gif" = false
        ∧ strEndsWith link ".svg" = false
        ∧ (L.prevent_outside = true → strStartsWith link base.asStr = true)) := by
  cases hp : L.prevent_outside <;>
    simp [keepLink, hp, List.any_eq_false, and_assoc]

/-- C4 witness: the link `http://s/a` is kept by the filter of `L1`. -/
theorem keepLink_iff_witness :
    keepLink L1 (W1.parseUrl "http://s/") "http://s/a" = true :=
  (keepLink_iff L1 (W1.parseUrl "http://s/") "http://s/a").mpr (by decide)

/-- C8: href normalization keeps an href starting with `http` unchanged,
prepends the base scheme and a colon to an href starting with `//`, joins any
other href onto the base URL, and an href whose join fails contributes
nothing to the normalized list. -/
theorem normalizeHref_cases (base : Url) (href : String) (rest : List String) :
    (normalizeHref base href =
      if strStartsWith href "http" then some href
      else if strStartsWith href "//" then some (base.scheme ++ ":" ++ href)
      else base.join href)
    ∧ (normalizeHref base href = none →
        (href :: rest).filterMap (normalizeHref base)
          = rest.filterMap (normalizeHref base)) := by
  refine ⟨rfl, fun h => ?_⟩
  simp [List.filterMap_cons, h]

/-- C8 witness: an unresolvable relative href is dropped from the list. -/
theorem normalizeHref_cases_witness :
    List.filterMap (normalizeHref Bnone) ["rel", "http://x"]
      = List.filterMap (normalizeHref Bnone) ["http://x"] :=
  (normalizeHref_cases Bnone "rel" ["http://x"]).2 rfl

theorem childFetchUrls_append : ∀ t1 t2 : List FetchEvent,
    childFetchUrls (t1 ++ t2) = childFetchUrls t1 ++ childFetchUrls t2 := by
  intro t1 t2
  induction t1 with
  | nil => rfl
  | cons e es ih => cases e <;> simp [childFetchUrls, ih]

theorem contains_false_not_mem {v : List String} {c : String}
    (h : v.contains c = false) : c ∉ v := by
  simpa [List.contains] using h

theorem traceOk_nil (v : List String) :
    TraceOk v ([], v, ([] : List FetchEvent)) :=
  ⟨fun _ hx => hx, fun u hu => absurd hu (by simp [childFetchUrls]),
    by simp [childFetchUrls]⟩

theorem mem_contains_true {v : List String} {c : String} (h : c ∈ v) :
    v.contains c = true := by
  simpa [List.contains]

theorem processChildren_inv (W : World)
    (expandF : String → List String → List Document × List String × List FetchEvent)
    (hf : ∀ c v, TraceOk v (expandF c v)) :
    ∀ (childs : List String) (v : List String),
      TraceOk v (processChildren W expandF childs v) := by
  intro childs
  induction childs with
  | nil => intro v; exact traceOk_nil v
  | cons c cs ih =>
    intro v
    simp only [processChildren]
    split
    · exact ih v
    · rename_i hv
      have hcv : c ∉ v := fun hm => hv (mem_contains_true hm)
      split
      · obtain ⟨A1, B1, C1⟩ := ih (c :: v)
        refine ⟨fun x hx => A1 x (List.mem_cons_of_mem c hx), ?_, ?_⟩
        · intro u hu
          simp only [childFetchUrls] at hu
          rcases List.mem_cons.mp hu with h1 | h1
          · rw [h1]
            exact ⟨A1 c (List.mem_cons_self c v), hcv⟩
          · obtain ⟨hin, hout⟩ := B1 u h1
            exact ⟨hin, fun hmem => hout (List.mem_cons_of_mem c hmem)⟩
        · simp only [childFetchUrls]
          refine List.nodup_cons.mpr ⟨fun hmem => ?_, C1⟩
          exact (B1 c hmem).2 (List.mem_cons_self c v)
      · rename_i d
        split
        · obtain ⟨A2, B2, C2⟩ := hf c (c :: v)
          obtain ⟨A3, B3, C3⟩ := ih (expandF c (c :: v)).2.1
          refine ⟨?_, ?_, ?_⟩
          · intro x hx
            exact A3 x (A2 x (List.mem_cons_of_mem c hx))
          · intro u hu
            simp only [childFetchUrls, List.append_eq, childFetchUrls_append] at hu
            rcases List.mem_cons.mp hu with h1 | h1
            · rw [h1]
              exact ⟨A3 c (A2 c (List.mem_cons_self c v)), hcv⟩
            · rcases List.mem_append.mp h1 with h2 | h2
              · obtain ⟨hin, hout⟩ := B2 u h2
                exact ⟨A3 u hin, fun hmem => hout (List.mem_cons_of_mem c hmem)⟩
              · obtain ⟨hin, hout⟩ := B3 u h2
                refine ⟨hin, fun hmem => ?_⟩
                exact hout (A2 u (List.mem_cons_of_mem c hmem))
          · simp only [childFetchUrls, List.append_eq, childFetchUrls_append]
            refine List.nodup_cons.mpr ⟨fun hmem => ?_, ?_⟩
            · rcases List.mem_append.mp hmem with h2 | h2
              · exact (B2 c h2).2 (List.mem_cons_self c v)
              · exact (B3 c h2).2 (A2 c (List.mem_cons_self c v))
            · refine List.nodup_append.mpr ⟨C2, C3, ?_⟩
              intro u h2 h3
              exact (B3 u h3).2 (B2 u h2).1
        · obtain ⟨A1, B1, C1⟩ := ih (c :: v)
          refine ⟨fun x hx => A1 x (List.mem_cons_of_mem c hx), ?_, ?_⟩
          · intro u hu
            simp only [childFetchUrls] at hu
            rcases List.mem_cons.mp hu with h1 | h1
            · rw [h1]
              exact ⟨A1 c (List.mem_cons_self c v), hcv⟩
            · obtain ⟨hin, hout⟩ := B1 u h1
              exact ⟨hin, fun hmem => hout (List.mem_cons_of_mem c hmem)⟩
          · simp only [childFetchUrls]
            refine List.nodup_cons.mpr ⟨fun hmem => ?_, C1⟩
            exact (B1 c hmem).2 (List.mem_cons_self c v)

theorem get_child_urls_recursive_inv (L : RecursiveWebLoader) (W : World) :
    ∀ (rem : Nat) (url : String) (v : List String),
      TraceOk v (get_child_urls_recursive L W rem url v) := by
  intro rem
  induction rem with
  | zero => intro url v; exact traceOk_nil v
  | succ n ih =>
    intro url v
    simp only [get_child_urls_recursive]
    set u := if strEndsWith url "/" then url else url ++ "/" with hu
    split
    · exact traceOk_nil v
    · split
      · exact ⟨fun _ hx => hx, fun w hw => absurd hw (by simp [childFetchUrls]),
          by simp [childFetchUrls]⟩
      · rename_i res hres
        have H := processChildren_inv W
          (fun child_url visited1 => get_child_urls_recursive L W n child_url visited1)
          (fun cu v1 => ih cu v1)
          (get_child_links L W res u) v
        exact ⟨H.1, fun w hw => H.2.1 w (by simpa [childFetchUrls] using hw),
          by simpa [childFetchUrls] using H.2.2⟩

/-- C2: during a crawl run every child-fetched URL is recorded in the visited
set (it is inserted right before its fetch is attempted) and was absent from
the starting visited set, and no URL is child-fetched twice; at the `load`
level, child fetches are duplicate-free, recorded in the final visited set,
and never target the root URL the visited set was seeded with. -/
theorem child_fetch_dedup (L : RecursiveWebLoader) (W : World) :
    (∀ (rem : Nat) (url : String) (v : List String),
        TraceOk v (get_child_urls_recursive L W rem url v))
      ∧ (childFetchUrls (loadT L W).2.2).Nodup
      ∧ (∀ u, u ∈ childFetchUrls (loadT L W).2.2 →
          u ∈ (loadT L W).2.1 ∧ u ∉ [L.url]) := by
  refine ⟨get_child_urls_recursive_inv L W, ?_, ?_⟩ <;>
    simp only [loadT]
  · split
    · simp [childFetchUrls]
    · exact (get_child_urls_recursive_inv L W L.max_depth L.url [L.url]).2.2
  · split
    · simp [childFetchUrls]
    · intro w hw
      exact (get_child_urls_recursive_inv L W L.max_depth L.url [L.url]).2.1 w hw

/-- C2 witness: in the concrete run over `W1`, the child-fetched URL is in the
final visited set and distinct from the seeded root URL. -/
theorem child_fetch_dedup_witness :
    "http://s/a" ∈ (loadT L1 W1).2.1 ∧ "http://s/a" ∉ ["http://s"] :=
  (child_fetch_dedup L1 W1).2.2 "http://s/a" (by decide)

/-- C5: an unvisited child link whose fetch succeeds appends exactly one
Document to the results, and the loop recurses into it at the next depth if
and only if the child URL's literal string form ends with `/`; without the
trailing slash the child's document is produced but the child is never
expanded. -/
theorem child_loop_step (L : RecursiveWebLoader) (W : World) (rem : Nat)
    (c : String) (cs : List String) (v : List String)
    (hv : v.contains c = false) (d : Document) (hd : get_url_as_doc W c = some d) :
    (processChildren W (fun cu v1 => get_child_urls_recursive L W rem cu v1)
        (c :: cs) v).1
      = d ::
          (if strEndsWith c "/" = true then
            (get_child_urls_recursive L W rem c (c :: v)).1
              ++ (processChildren W
                    (fun cu v1 => get_child_urls_recursive L W rem cu v1) cs
                    (get_child_urls_recursive L W rem c (c :: v)).2.1).1
          else
            (processChildren W (fun cu v1 => get_child_urls_recursive L W rem cu v1)
                cs (c :: v)).1) := by
  have hm : c ∉ v := contains_false_not_mem hv
  by_cases hs : strEndsWith c "/" = true <;>
    simp [processChildren, hm, hd, hs]

/-- C5 witness: the slash-free child `http://s/a` of the concrete run yields
exactly its own document and no expansion. -/
theorem child_loop_step_witness :
    (processChildren W1 (fun cu v1 => get_child_urls_recursive L1 W1 0 cu v1)
        ["http://s/a"] ["http://s"]).1
      = [Document.mk "Hi" [("source", "http://s/a")]] :=
  (child_loop_step L1 W1 0 "http://s/a" [] ["http://s"] (by decide)
    (Document.mk "Hi" [("source", "http://s/a")]) (by decide)).trans (by decide)

theorem extract_metadata_optInsert (W : World) (raw_html url : String) :
    extract_metadata W raw_html url =
      optInsert
        (optInsert
          (optInsert (insertKV [] "source" url) "title"
            (((selectTag "title" (W.parse raw_html)).head?).map innerHtml))
          "description"
          (((selectMetaDescription (W.parse raw_html)).head?).bind
            fun e => getAttr e "content"))
        "language"
        (((selectTag "html" (W.parse raw_html)).head?).bind
          fun g => getAttr g "lang") := by
  simp only [extract_metadata]
  cases (selectTag "title" (W.parse raw_html)).head? <;>
    cases (selectMetaDescription (W.parse raw_html)).head? <;>
      cases (selectTag "html" (W.parse raw_html)).head? <;> rfl

theorem md_shape (url : String) (ot od ol : Option String)
    (md : List (String × String))
    (hmd : md =
      optInsert (optInsert (optInsert (insertKV [] "source" url) "title" ot)
        "description" od) "language" ol) :
    md.lookup "source" = some url
      ∧ (∀ k ∈ md.map Prod.fst,
          k = "source" ∨ k = "title" ∨ k = "description" ∨ k = "language")
      ∧ ((md.lookup "title").isSome = true ↔ ot.isSome = true)
      ∧ ((md.lookup "description").isSome = true ↔ od.isSome = true)
      ∧ ((md.lookup "language").isSome = true ↔ ol.isSome = true) := by
  subst hmd
  cases ot <;> cases od <;> cases ol <;>
    simp [optInsert, insertKV, List.lookup]

theorem isSome_map_eq {α β : Type} (f : α → β) (o : Option α) :
    (o.map f).isSome = o.isSome := by
  cases o <;> rfl

theorem isSome_bind_iff {α : Type} (o : Option α) (f : α → Option String) :
    (o.bind f).isSome = true ↔ ∃ a, o = some a ∧ (f a).isSome = true := by
  cases o <;> simp

/-- C9: the metadata always binds `source` to the source URL, produces no key
outside `source`, `title`, `description`, `language`, and binds `title`
(resp. `description`, `language`) exactly when the first `title` element
(resp. the `content` attribute of the first `meta[name=description]` element,
the `lang` attribute of the first `html` element) exists in the markup. -/
theorem extract_metadata_shape (W : World) (raw_html url : String) :
    ((extract_metadata W raw_html url).lookup "source" = some url)
      ∧ (∀ k ∈ (extract_metadata W raw_html url).map Prod.fst,
          k = "source" ∨ k = "title" ∨ k = "description" ∨ k = "language")
      ∧ (((extract_metadata W raw_html url).lookup "title").isSome = true ↔
          ((selectTag "title" (W.parse raw_html)).head?).isSome = true)
      ∧ (((extract_metadata W raw_html url).lookup "description").isSome = true ↔
          ∃ e, (selectMetaDescription (W.parse raw_html)).head? = some e
            ∧ (getAttr e "content").isSome = true)
      ∧ (((extract_metadata W raw_html url).lookup "language").isSome = true ↔
          ∃ g, (selectTag "html" (W.parse raw_html)).head? = some g
            ∧ (getAttr g "lang").isSome = true) := by
  have H := md_shape url
    (((selectTag "title" (W.parse raw_html)).head?).map innerHtml)
    (((selectMetaDescription (W.parse raw_html)).head?).bind
      fun e => getAttr e "content")
    (((selectTag "html" (W.parse raw_html)).head?).bind fun g => getAttr g "lang")
    (extract_metadata W raw_html url)
    (extract_metadata_optInsert W raw_html url)
  refine ⟨H.1, H.2.1, ?_, ?_, ?_⟩
  · have h := H.2.2.1
    rwa [isSome_map_eq] at h
  · have h := H.2.2.2.1
    rwa [isSome_bind_iff] at h
  · have h := H.2.2.2.2
    rwa [isSome_bind_iff] at h


/-- C9 witness: the concrete root page metadata binds `source` to the URL. -/
theorem extract_metadata_shape_witness :
    (extract_metadata W1 "ROOT" "http://s").lookup "source" = some "http://s" :=
  (extract_metadata_shape W1 "ROOT" "http://s").1

/-- C10 counterexample: with `max_depth = 1`, a successful root fetch, and the
normalized root URL matching an excluded-directory prefix, the run performs no
fetch at all inside the recursive expansion (the ghost trace is empty), so the
claimed unconditional second fetch of the root does not happen. -/
theorem double_fetch_root_cex :
    0 < L2.max_depth ∧ W1.fetch L2.url = some "ROOT"
      ∧ (loadT L2 W1).2.2 = [] ∧ (loadT L2 W1).1.length = 1 :=
  ⟨by decide, by decide, by decide, by decide⟩

/-- C10 (amended): when `max_depth > 0`, the root fetch succeeds, and the
trailing-slash-normalized root URL matches no excluded-directory prefix, the
expansion fetches the root a second time in normalized form before link
discovery; this second fetch is neither checked against nor recorded in the
visited set (the child loop still starts from the visited set `[root]`) and
contributes no Document of its own. -/
theorem double_fetch_second_root (L : RecursiveWebLoader) (W : World)
    (rem : Nat) (res : String) (hd : L.max_depth = rem + 1)
    (hr : W.fetch L.url = some res) (u : String)
    (hu : u = if strEndsWith L.url "/" then L.url else L.url ++ "/")
    (hex : (L.exclude_dirs.any fun ex_dir => strStartsWith u ex_dir) = false) :
    loadT L W =
      match W.fetch u with
      | none =>
          ([Document.mk (extractor W res) (extract_metadata W res L.url)], [L.url],
            [FetchEvent.expand u])
      | some res2 =>
          (Document.mk (extractor W res) (extract_metadata W res L.url)
              :: (processChildren W
                    (fun cu v1 => get_child_urls_recursive L W rem cu v1)
                    (get_child_links L W res2 u) [L.url]).1,
            (processChildren W (fun cu v1 => get_child_urls_recursive L W rem cu v1)
                (get_child_links L W res2 u) [L.url]).2.1,
            FetchEvent.expand u
              :: (processChildren W
                    (fun cu v1 => get_child_urls_recursive L W rem cu v1)
                    (get_child_links L W res2 u) [L.url]).2.2) := by
  subst hu
  cases hfu : W.fetch (if strEndsWith L.url "/" then L.url else L.url ++ "/") <;>
    simp [loadT, get_url_as_doc, hr, hd, get_child_urls_recursive, hex, hfu]

/-- C10 amended-claim witness: the concrete run over `W1` fetches the root a
second time in normalized form and yields only the root and child documents. -/
theorem double_fetch_second_root_witness :
    loadT L1 W1 =
      ([Document.mk "Hello" [("source", "http://s")],
        Document.mk "Hi" [("source", "http://s/a")]],
        ["http://s/a", "http://s"],
        [FetchEvent.expand "http://s/", FetchEvent.child "http://s/a"]) :=
  (double_fetch_second_root L1 W1 0 "ROOT" rfl rfl "http://s/" (by decide)
    (by decide)).trans (by decide)

end Rwl
